import Mathlib

/-!
Shallow embedding of the Knowledge-Graph-with-RAG repository core:

* `src/scripts/merge_rdf.py` — label index construction (`build_label_index`),
  mapping-CSV row parsing (`parse_mapping_csv`, `get_cell`) and the
  merge/resolution engine (`merge_graph`, with its per-pair loop body
  extracted as `mergeStep`).
* `src/rag/rag_service.py` — the retrieval index (`RAGIndex.build`,
  `RAGIndex.search`) over an exact inner-product similarity structure
  (`IndexFlatIP`, modelling `faiss.IndexFlatIP`).

Python strings are Lean `String`s; the Python string primitives used by the
code (`str.strip`, `str.lower`, single-character `str.replace`, `str.split`)
are embedded below.  An rdflib `Graph` is a *set* of triples; it is embedded
as a duplicate-free `List Triple` whose `add` is insert-if-absent, which
keeps insertion order (rdflib's in-memory store also iterates insertion
order) and makes re-adding a triple a no-op, exactly like rdflib.
-/

namespace KGRag

/-- Characters removed by Python `str.strip()` (ASCII whitespace; the wider
Unicode space classes do not occur in this repository's data). -/
def pyIsSpace (c : Char) : Bool :=
  c = ' ' || c = '\t' || c = '\n' || c = '\x0d' || c = '\x0b' || c = '\x0c'

/-- Python `str.strip()`: drop leading and trailing whitespace. -/
def pyStrip (s : String) : String :=
  ⟨((s.data.dropWhile pyIsSpace).reverse.dropWhile pyIsSpace).reverse⟩

/-- Python `str.lower()` per character.  `Char.toLower` covers the ASCII
range; 'Đ' (U+0110), the one non-ASCII uppercase letter exercised by this
repository's data, lowercases to 'đ' (U+0111) as in Python.  All other
characters in the data are already lowercase, on which `lower` is the
identity, as here. -/
def pyToLower (c : Char) : Char :=
  if c = 'Đ' then 'đ' else c.toLower

/-- Python `str.lower()`. -/
def pyLower (s : String) : String := ⟨s.data.map pyToLower⟩

/-- The normalization `label.strip().lower()` used by `build_label_index`
(merge_rdf.py line 31) and `resolve` (line 88). -/
def pyNorm (label : String) : String := pyLower (pyStrip label)

/-- Python `str.replace(a, b)` for single-character `a` and `b` (the only
form the code uses). -/
def pyReplaceChar (s : String) (a b : Char) : String :=
  ⟨s.data.map (fun c => if c = a then b else c)⟩

/-- Python `str.split(sep)` for a single-character separator, on the
character list: adjacent separators and border separators yield empty
segments, and the empty string yields one empty segment, as in Python. -/
def splitCharAux (sep : Char) : List Char → List Char → List (List Char)
  | [], acc => [acc.reverse]
  | c :: cs, acc =>
    if c = sep then acc.reverse :: splitCharAux sep cs []
    else splitCharAux sep cs (c :: acc)

/-- Python `str.split(sep)` for a single-character separator. -/
def pySplit (s : String) (sep : Char) : List String :=
  (splitCharAux sep s.data []).map (fun l => (⟨l⟩ : String))

/-- Python `suffix in s` at the end / `str.endswith`. -/
def strEndsWith (s suffix : String) : Bool :=
  suffix.data.isSuffixOf s.data

/-- An RDF term: rdflib `URIRef` or plain `Literal`.  (Language-tagged
literals never reach the merge path: `merge_graph` only emits plain
literals, and `build_label_index` keys on the literal's text `str(o)`,
which ignores the tag.) -/
inductive Node where
  | uri (s : String)
  | lit (s : String)
deriving DecidableEq

/-- An RDF triple (subject, predicate URI, object). -/
structure Triple where
  s : Node
  p : String
  o : Node
deriving DecidableEq

def RDF_type : String := "http://www.w3.org/1999/02/22-rdf-syntax-ns#type"
def RDFS_label : String := "http://www.w3.org/2000/01/rdf-schema#label"
def EX_Province : String := "http://example.org/vn/ontology#Province"
def EX_canonicalLabel : String := "http://example.org/vn/ontology#canonicalLabel"
def EX_formedBy : String := "http://example.org/vn/ontology#formedBy"
def EX_mergedInto : String := "http://example.org/vn/ontology#mergedInto"

/-- An rdflib `Graph`, embedded as its (duplicate-free, insertion-ordered)
list of triples. -/
abbrev RDFGraph := List Triple

/-- rdflib `Graph.add`: a graph stores a *set* of triples, so adding an
already-present triple is a no-op. -/
def RDFGraph.add (g : RDFGraph) (t : Triple) : RDFGraph :=
  if t ∈ g then g else g ++ [t]

/-- rdflib containment of the wildcard pattern `(s, p, None)`, as in
`(old_uri, RDF.type, None) in merged` (merge_rdf.py line 112). -/
def RDFGraph.containsSP (g : RDFGraph) (s : Node) (p : String) : Bool :=
  g.any (fun t => decide (t.s = s) && decide (t.p = p))

/-- The label index: a Python dict from normalized label to URIRef,
embedded as an insertion-ordered association list. -/
abbrev LabelIndex := List (String × Node)

/-- Python `dict.get` on the association-list embedding. -/
def lookupKey (idx : LabelIndex) (k : String) : Option Node :=
  (idx.find? (fun kv => decide (kv.1 = k))).map (fun kv => kv.2)

/-- merge_rdf.py lines 27-34: bind each `rdfs:label` literal, normalized by
`strip().lower()`, to its subject; `if key not in label_to_uri` keeps the
first occurrence. -/
def build_label_index (g : RDFGraph) : LabelIndex :=
  g.foldl
    (fun idx t =>
      if t.p = RDFS_label then
        match t.o with
        | Node.lit s =>
          let key := pyNorm s
          if (lookupKey idx key).isSome then idx else idx ++ [(key, t.s)]
        | Node.uri _ => idx
      else idx)
    []

/-- merge_rdf.py lines 87-89: `label_index.get(label.strip().lower())`. -/
def resolve (idx : LabelIndex) (label : String) : Option Node :=
  lookupKey idx (pyNorm label)

/-- merge_rdf.py lines 97-102: the slug computed for an unresolved new
label — `new_label.strip().lower().replace(" ", "-").replace("đ", "d").replace("Đ", "D")`. -/
def slugify (label : String) : String :=
  pyReplaceChar (pyReplaceChar (pyReplaceChar (pyNorm label) ' ' '-') 'đ' 'd') 'Đ' 'D'

/-- merge_rdf.py line 103: the minted local URI for an unresolved new label. -/
def mintUri (label : String) : String :=
  "http://example.org/vn/entity/" ++ slugify label

def mintNode (label : String) : Node := Node.uri (mintUri label)

/-- The body of the `for old_label, new_label in mappings` loop of
`merge_graph` (merge_rdf.py lines 91-117), acting on the accumulated output
graph.  (`merged.bind` on lines 82-83 only registers serializer prefixes
and adds no triple.) -/
def mergeStep (idx : LabelIndex) (merged : RDFGraph) (pair : String × String) : RDFGraph :=
  let old_uri := resolve idx pair.1
  let minted : Node × RDFGraph :=
    match resolve idx pair.2 with
    | some u => (u, merged)
    | none =>
      let u := mintNode pair.2
      (u, ((merged.add ⟨u, RDF_type, Node.uri EX_Province⟩).add
            ⟨u, RDFS_label, Node.lit pair.2⟩).add
            ⟨u, EX_canonicalLabel, Node.lit pair.2⟩)
  let new_uri := minted.1
  let merged1 := minted.2
  match old_uri with
  | none => merged1
  | some old_u =>
    let merged2 :=
      if merged1.containsSP old_u RDF_type then merged1
      else (merged1.add ⟨old_u, RDF_type, Node.uri EX_Province⟩).add
             ⟨old_u, EX_canonicalLabel, Node.lit pair.1⟩
    (merged2.add ⟨new_uri, EX_formedBy, old_u⟩).add ⟨old_u, EX_mergedInto, new_uri⟩

/-- merge_rdf.py lines 80-119: build the label index from the provinces
graph and fold the per-pair step over the mappings, starting from an empty
output graph. -/
def merge_graph (prov_graph : RDFGraph) (mappings : List (String × String)) : RDFGraph :=
  mappings.foldl (mergeStep (build_label_index prov_graph)) []

/-- A raw `csv.DictReader` record: an insertion-ordered dict from header to
cell.  A cell can be Python `None` (short row), hence `Option String`;
`get_cell`'s `or ""` coalesces that to `""`. -/
abbrev Record := List (String × Option String)

/-- Python `dict` lookup (`key in row` / `row.get(key)`) on the
association-list embedding: `none` means the key is absent. -/
def dictGet (row : Record) (k : String) : Option (Option String) :=
  (row.find? (fun kv => decide (kv.1 = k))).map (fun kv => kv.2)

/-- Python dict assignment: a later duplicate key overwrites the value
bound by an earlier one, keeping the first occurrence's position. -/
def dictInsert (row : Record) (k : String) (v : Option String) : Record :=
  if (dictGet row k).isSome then
    row.map (fun kv => if kv.1 = k then (kv.1, v) else kv)
  else row ++ [(k, v)]

/-- merge_rdf.py line 67: the trimmed-key view of a raw row, the dict
comprehension keyed by `k.strip()`. -/
def trimRowKeys (raw_row : Record) : Record :=
  raw_row.foldl (fun d kv => dictInsert d (pyStrip kv.1) kv.2) []

/-- merge_rdf.py lines 53-63 (`get_cell`): try the exact key, then the
trimmed key, then the first key equal up to trim-and-lowercase; a hit is
returned as `row.get(k) or ""`, which turns a `None` cell into `""`. -/
def get_cell (row : Record) (key : String) : String :=
  match dictGet row key with
  | some v => v.getD ""
  | none =>
    let trimmed := pyStrip key
    match dictGet row trimmed with
    | some v => v.getD ""
    | none =>
      match row.find? (fun kv => decide (pyLower (pyStrip kv.1) = pyLower trimmed)) with
      | some kv => kv.2.getD ""
      | none => ""

/-- merge_rdf.py lines 37-77 (`parse_mapping_csv`), per-record logic: the
CSV file I/O stays outside the embedding, so the function consumes the list
of header-keyed records `csv.DictReader` yields, in file order.  (The
`field_map` built on lines 49-51 is dead code: it is never read.)  A row
whose `new_province` or `old_province` cell is empty after trimming is
skipped; the old cell is split on `"|"`, each part trimmed, empty parts
dropped, each survivor appended as an `(old_label, new_label)` pair. -/
def parse_mapping_csv (rows : List Record) : List (String × String) :=
  rows.foldl
    (fun mappings raw_row =>
      let row := trimRowKeys raw_row
      let new_label := pyStrip (get_cell row "new_province")
      let old_field := pyStrip (get_cell row "old_province")
      if new_label = "" ∨ old_field = "" then mappings
      else
        (pySplit old_field '|').foldl
          (fun ms old_part =>
            let old_label := pyStrip old_part
            if old_label = "" then ms else ms ++ [(old_label, new_label)])
          mappings)
    []

/-- An embedding vector.  The `SentenceTransformer` model and
`faiss.normalize_L2` are external numeric collaborators: the composite
"encode then L2-normalize" pipeline enters the embedding as an opaque
per-string vector function (IEEE floats are not shallowly embeddable;
integer coordinates keep every score computation exact and executable, and
no claim under proof depends on score values). -/
abbrev Vec := List ℤ

/-- Inner product of two vectors. -/
def dot (u v : Vec) : ℤ := (List.zipWith (fun a b => a * b) u v).sum

/-- `faiss.IndexFlatIP`: an exact inner-product similarity structure over
the stored vectors. -/
structure IndexFlatIP where
  vecs : List Vec

/-- Inner-product score of the stored vector at position `i` against `q`. -/
def ipScore (ix : IndexFlatIP) (q : Vec) (i : Nat) : ℤ :=
  dot q (ix.vecs.getD i [])

/-- Result ordering of `IndexFlatIP.search`: descending score, ties broken
by insertion position. -/
def rankRel (ix : IndexFlatIP) (q : Vec) (i j : Nat) : Prop :=
  ipScore ix q j < ipScore ix q i ∨ (ipScore ix q i = ipScore ix q j ∧ i ≤ j)

instance (ix : IndexFlatIP) (q : Vec) : DecidableRel (rankRel ix q) := fun i j => by
  unfold rankRel; infer_instance

/-- `faiss.IndexFlatIP.search` for one query: exactly `k` (index, score)
entries — stored-vector positions in descending-score order truncated to
`k`, padded with the faiss sentinel index `-1` when `k` exceeds the number
of stored vectors. -/
def IndexFlatIP.search (ix : IndexFlatIP) (q : Vec) (k : Nat) : List (Int × ℤ) :=
  let n := ix.vecs.length
  let order := List.insertionSort (rankRel ix q) (List.range n)
  ((order.take k).map (fun i => (Int.ofNat i, ipScore ix q i)))
    ++ List.replicate (k - n) ((-1 : Int), 0)

/-- The fields of the `RAGIndex` class (rag_service.py lines 55-59):
`index` (a faiss index, or Python `None`) and `corpus`. -/
structure RAGIndex where
  index : Option IndexFlatIP
  corpus : List String

/-- `RAGIndex.__init__` (rag_service.py lines 56-59): `self.index = None`,
`self.corpus = []` — the never-built state. -/
def RAGIndex.new : RAGIndex := ⟨none, []⟩

/-- rag_service.py lines 61-72 (`RAGIndex.build`), with the corpus fetch
(`query_triples_for_context`, an HTTP collaborator) supplied as the `facts`
argument and the embedding model as `encode`.  `if not self.corpus` makes
an empty corpus short-circuit with `self.index = None` before any call
into the numeric backend. -/
def RAGIndex.build (encode : String → Vec) (facts : List String) : RAGIndex :=
  if facts.isEmpty then ⟨none, facts⟩
  else ⟨some ⟨facts.map encode⟩, facts⟩

/-- rag_service.py lines 74-84 (`RAGIndex.search`): `if not self.index`
(Python `None` is falsy; a faiss index object is truthy) returns `[]`;
otherwise query the backend and keep only the results whose index `i`
passes `i >= 0 and i < len(self.corpus)`, pairing `self.corpus[i]` with
its score. -/
def RAGIndex.search (encode : String → Vec) (st : RAGIndex) (query : String) (k : Nat) :
    List (String × ℤ) :=
  match st.index with
  | none => []
  | some ix =>
    let raw := ix.search (encode query) k
    raw.filterMap (fun p =>
      if 0 ≤ p.1 ∧ p.1 < (st.corpus.length : Int) then
        some (st.corpus.getD p.1.toNat "", p.2)
      else none)

/-- Predicate used by the invariant proofs: every `rdf:type` triple of the
graph has object `ex:Province` (the merge engine types entities with
nothing else). -/
def typeProvOnly (g : RDFGraph) : Prop :=
  ∀ t ∈ g, t.p = RDF_type → t.o = Node.uri EX_Province

/-! ### Helper lemmas about the graph-as-set embedding -/

theorem mem_add_iff {g : RDFGraph} {t t' : Triple} : t' ∈ g.add t ↔ t' ∈ g ∨ t' = t := by
  unfold RDFGraph.add
  split
  · constructor
    · exact Or.inl
    · rintro (h | rfl) <;> assumption
  · simp [List.mem_append]

theorem mem_add_self (g : RDFGraph) (t : Triple) : t ∈ g.add t :=
  mem_add_iff.mpr (Or.inr rfl)

theorem mem_add_of_mem {g : RDFGraph} {t' : Triple} (t : Triple) (h : t' ∈ g) :
    t' ∈ g.add t :=
  mem_add_iff.mpr (Or.inl h)

theorem nodup_add {g : RDFGraph} (t : Triple) (h : g.Nodup) : (g.add t).Nodup := by
  unfold RDFGraph.add
  split
  · exact h
  · next hmem =>
    refine List.Nodup.append h (List.nodup_singleton t) ?_
    intro a ha hb
    rw [List.mem_singleton] at hb
    subst hb
    exact hmem ha

/-- Every triple of the input graph survives one merge step. -/
theorem mem_mergeStep_of_mem (idx : LabelIndex) (g : RDFGraph) (p : String × String)
    {t : Triple} (h : t ∈ g) : t ∈ mergeStep idx g p := by
  unfold mergeStep
  cases hn : resolve idx p.2 <;> cases ho : resolve idx p.1 <;>
    simp only [hn, ho] <;> (try split) <;>
    (repeat first
      | assumption
      | apply mem_add_of_mem)

/-- Every triple of the running graph survives the rest of the fold. -/
theorem mem_foldl_of_mem (idx : LabelIndex) (ms : List (String × String)) {g : RDFGraph}
    {t : Triple} (h : t ∈ g) : t ∈ ms.foldl (mergeStep idx) g := by
  induction ms generalizing g with
  | nil => exact h
  | cons p ps ih => exact ih (mem_mergeStep_of_mem idx g p h)

/-- One merge step keeps the output graph duplicate-free. -/
theorem nodup_mergeStep (idx : LabelIndex) (g : RDFGraph) (p : String × String)
    (h : g.Nodup) : (mergeStep idx g p).Nodup := by
  unfold mergeStep
  cases hn : resolve idx p.2 <;> cases ho : resolve idx p.1 <;>
    simp only [hn, ho] <;> (try split) <;>
    (repeat first
      | assumption
      | apply nodup_add)

theorem typeProvOnly_add {g : RDFGraph} {t : Triple}
    (h : typeProvOnly g) (ht : t.p = RDF_type → t.o = Node.uri EX_Province) :
    typeProvOnly (g.add t) := by
  intro t' ht' hp
  rcases mem_add_iff.mp ht' with h' | rfl
  · exact h t' h' hp
  · exact ht hp

theorem tpo_add_type {g : RDFGraph} {s : Node} (h : typeProvOnly g) :
    typeProvOnly (g.add ⟨s, RDF_type, Node.uri EX_Province⟩) :=
  typeProvOnly_add h (fun _ => rfl)

theorem tpo_add_other {g : RDFGraph} {s : Node} {p : String} {o : Node}
    (h : typeProvOnly g) (hp : p ≠ RDF_type) : typeProvOnly (g.add ⟨s, p, o⟩) :=
  typeProvOnly_add h (fun hq => absurd hq hp)

theorem typeProvOnly_mergeStep (idx : LabelIndex) (g : RDFGraph) (p : String × String)
    (h : typeProvOnly g) : typeProvOnly (mergeStep idx g p) := by
  have hForm : EX_formedBy ≠ RDF_type := by decide
  have hMerg : EX_mergedInto ≠ RDF_type := by decide
  have hLab : RDFS_label ≠ RDF_type := by decide
  have hCan : EX_canonicalLabel ≠ RDF_type := by decide
  unfold mergeStep
  cases hn : resolve idx p.2 <;> cases ho : resolve idx p.1 <;> simp only [hn, ho]
  · exact tpo_add_other (tpo_add_other (tpo_add_type h) hLab) hCan
  · split
    · exact tpo_add_other
        (tpo_add_other (tpo_add_other (tpo_add_other (tpo_add_type h) hLab) hCan) hForm) hMerg
    · exact tpo_add_other (tpo_add_other (tpo_add_other (tpo_add_type
        (tpo_add_other (tpo_add_other (tpo_add_type h) hLab) hCan)) hCan) hForm) hMerg
  · exact h
  · split
    · exact tpo_add_other (tpo_add_other h hForm) hMerg
    · exact tpo_add_other (tpo_add_other (tpo_add_other (tpo_add_type h) hCan) hForm) hMerg

theorem nodup_merge_graph (g : RDFGraph) (ms : List (String × String)) :
    (merge_graph g ms).Nodup := by
  unfold merge_graph
  generalize build_label_index g = idx
  have main : ∀ (l : List (String × String)) (h : RDFGraph), h.Nodup →
      (l.foldl (mergeStep idx) h).Nodup := by
    intro l
    induction l with
    | nil => exact fun h hh => hh
    | cons p ps ih => exact fun h hh => ih _ (nodup_mergeStep idx h p hh)
  exact main ms [] List.nodup_nil

theorem typeProvOnly_merge_graph (g : RDFGraph) (ms : List (String × String)) :
    typeProvOnly (merge_graph g ms) := by
  unfold merge_graph
  generalize build_label_index g = idx
  have main : ∀ (l : List (String × String)) (h : RDFGraph), typeProvOnly h →
      typeProvOnly (l.foldl (mergeStep idx) h) := by
    intro l
    induction l with
    | nil => exact fun h hh => hh
    | cons p ps ih => exact fun h hh => ih _ (typeProvOnly_mergeStep idx h p hh)
  exact main ms [] (by intro t ht; cases ht)

/-- When the new label is unresolved, the merge step emits all three mint
triples (the mint block runs before the old-side check is reached). -/
theorem mint_mem_mergeStep (idx : LabelIndex) (g : RDFGraph) (p : String × String)
    (hn : resolve idx p.2 = none) :
    Triple.mk (mintNode p.2) RDF_type (Node.uri EX_Province) ∈ mergeStep idx g p ∧
    Triple.mk (mintNode p.2) RDFS_label (Node.lit p.2) ∈ mergeStep idx g p ∧
    Triple.mk (mintNode p.2) EX_canonicalLabel (Node.lit p.2) ∈ mergeStep idx g p := by
  unfold mergeStep
  cases ho : resolve idx p.1 <;> simp only [hn, ho]
  · exact ⟨mem_add_of_mem _ (mem_add_of_mem _ (mem_add_self _ _)),
           mem_add_of_mem _ (mem_add_self _ _),
           mem_add_self _ _⟩
  · split
    · exact ⟨mem_add_of_mem _ (mem_add_of_mem _
               (mem_add_of_mem _ (mem_add_of_mem _ (mem_add_self _ _)))),
             mem_add_of_mem _ (mem_add_of_mem _ (mem_add_of_mem _ (mem_add_self _ _))),
             mem_add_of_mem _ (mem_add_of_mem _ (mem_add_self _ _))⟩
    · exact ⟨mem_add_of_mem _ (mem_add_of_mem _ (mem_add_of_mem _ (mem_add_of_mem _
               (mem_add_of_mem _ (mem_add_of_mem _ (mem_add_self _ _)))))),
             mem_add_of_mem _ (mem_add_of_mem _ (mem_add_of_mem _ (mem_add_of_mem _
               (mem_add_of_mem _ (mem_add_self _ _))))),
             mem_add_of_mem _ (mem_add_of_mem _ (mem_add_of_mem _ (mem_add_of_mem _
               (mem_add_self _ _))))⟩

/-- A pair with an unresolved new label installs the minted type triple in
the final merged graph. -/
theorem mint_type_mem_merge_graph (g : RDFGraph) (ms : List (String × String))
    {o n : String} (hp : (o, n) ∈ ms)
    (hn : resolve (build_label_index g) n = none) :
    Triple.mk (mintNode n) RDF_type (Node.uri EX_Province) ∈ merge_graph g ms := by
  unfold merge_graph
  obtain ⟨l1, l2, rfl⟩ := List.append_of_mem hp
  rw [List.foldl_append, List.foldl_cons]
  exact mem_foldl_of_mem _ _ (mint_mem_mergeStep _ _ (o, n) hn).1

theorem length_le_one_of_nodup_all_eq {α : Type} {m : List α} (hnd : m.Nodup) (c : α)
    (hall : ∀ a ∈ m, a = c) : m.length ≤ 1 := by
  match m with
  | [] => simp
  | [a] => simp
  | a :: b :: r =>
    exfalso
    have ha := hall a (by simp)
    have hb := hall b (by simp)
    rw [List.nodup_cons] at hnd
    apply hnd.1
    rw [ha.trans hb.symm]
    exact List.mem_cons_self b r

/-- In a duplicate-free graph all of whose type triples point at
`ex:Province`, each subject carries at most one type triple. -/
theorem typeFilter_le_one (G : RDFGraph) (hnd : G.Nodup) (htpo : typeProvOnly G) (s : Node) :
    (G.filter (fun t => decide (t.s = s) && decide (t.p = RDF_type))).length ≤ 1 := by
  apply length_le_one_of_nodup_all_eq (hnd.filter _)
    (Triple.mk s RDF_type (Node.uri EX_Province))
  intro t ht
  rw [List.mem_filter] at ht
  obtain ⟨htm, hpred⟩ := ht
  simp only [Bool.and_eq_true, decide_eq_true_eq] at hpred
  have hobj := htpo t htm hpred.2
  cases t
  simp_all

theorem typeFilter_eq_one_of_mem (G : RDFGraph) (hnd : G.Nodup) (htpo : typeProvOnly G)
    (n : String)
    (hm : Triple.mk (mintNode n) RDF_type (Node.uri EX_Province) ∈ G) :
    (G.filter (fun t => decide (t.s = mintNode n) && decide (t.p = RDF_type))).length = 1 := by
  have hle := typeFilter_le_one G hnd htpo (mintNode n)
  have hmem : Triple.mk (mintNode n) RDF_type (Node.uri EX_Province) ∈
      G.filter (fun t => decide (t.s = mintNode n) && decide (t.p = RDF_type)) :=
    List.mem_filter.mpr ⟨hm, by simp⟩
  have hpos := List.length_pos.mpr (List.ne_nil_of_mem hmem)
  omega

/-! ### Claim theorems for the merge/resolution engine -/

/-- C1: a mapping pair whose old label does not resolve through the label
index contributes no `formedBy` or `mergedInto` edge and emits nothing for
the old side: any triple the merge step adds beyond the incoming graph has
the minted new-side node as subject and a non-provenance predicate; and
concretely, merging the single pair ("UnknownOld", "KnownNew") against a
graph that labels "KnownNew" produces an empty merged graph — zero
provenance edges and no entity for "UnknownOld". -/
theorem unresolvedOldSkipsPair :
    ∀ (idx : LabelIndex) (g : RDFGraph) (p : String × String),
      resolve idx p.1 = none →
      (∀ t ∈ mergeStep idx g p, t ∉ g →
        t.s = mintNode p.2 ∧ t.p ≠ EX_formedBy ∧ t.p ≠ EX_mergedInto) ∧
      merge_graph
        [Triple.mk (Node.uri "http://dbpedia.org/resource/KnownNew") RDFS_label
          (Node.lit "KnownNew")]
        [("UnknownOld", "KnownNew")] = [] := by
  intro idx g p ho
  constructor
  · intro t hts htg
    revert hts
    unfold mergeStep
    cases hn : resolve idx p.2 <;> simp only [hn, ho]
    · intro hts
      rcases mem_add_iff.mp hts with h1 | rfl
      · rcases mem_add_iff.mp h1 with h2 | rfl
        · rcases mem_add_iff.mp h2 with h3 | rfl
          · exact absurd h3 htg
          · exact ⟨rfl, show RDF_type ≠ EX_formedBy by decide,
                   show RDF_type ≠ EX_mergedInto by decide⟩
        · exact ⟨rfl, show RDFS_label ≠ EX_formedBy by decide,
                 show RDFS_label ≠ EX_mergedInto by decide⟩
      · exact ⟨rfl, show EX_canonicalLabel ≠ EX_formedBy by decide,
               show EX_canonicalLabel ≠ EX_mergedInto by decide⟩
    · intro hts
      exact absurd hts htg
  · decide

theorem unresolvedOldSkipsPair_witness :
    merge_graph
      [Triple.mk (Node.uri "http://dbpedia.org/resource/KnownNew") RDFS_label
        (Node.lit "KnownNew")]
      [("UnknownOld", "KnownNew")] = [] :=
  (unresolvedOldSkipsPair [] [] ("UnknownOld", "KnownNew") (by decide)).2

/-- C2: in the merged graph every subject — in particular every entity
referenced by a provenance relation — carries at most one type triple, and
a synthesized identifier whose label occurs in some pair with an
unresolved new side carries exactly one type triple, however many pairs
reference it (re-adding the triple to the output graph is a no-op because
the graph already holds that type assertion). -/
theorem typeTripleDedup :
    ∀ (g : RDFGraph) (ms : List (String × String)) (s : Node),
      ((merge_graph g ms).filter
          (fun t => decide (t.s = s) && decide (t.p = RDF_type))).length ≤ 1 ∧
      (∀ o n, (o, n) ∈ ms → resolve (build_label_index g) n = none →
        ((merge_graph g ms).filter
            (fun t => decide (t.s = mintNode n) && decide (t.p = RDF_type))).length = 1) := by
  intro g ms s
  refine ⟨typeFilter_le_one _ (nodup_merge_graph g ms) (typeProvOnly_merge_graph g ms) s, ?_⟩
  intro o n hp hn
  exact typeFilter_eq_one_of_mem _ (nodup_merge_graph g ms) (typeProvOnly_merge_graph g ms) n
    (mint_type_mem_merge_graph g ms hp hn)

theorem typeTripleDedup_witness :
    ((merge_graph [] [("Huế", "Đà Nẵng"), ("Lào Cai", "Đà Nẵng")]).filter
        (fun t => decide (t.s = mintNode "Đà Nẵng") && decide (t.p = RDF_type))).length = 1 :=
  (typeTripleDedup [] [("Huế", "Đà Nẵng"), ("Lào Cai", "Đà Nẵng")] (mintNode "Đà Nẵng")).2
    "Huế" "Đà Nẵng" (by decide) (by decide)

/-- C3 counterexample: the code lowercases first and then transliterates
only đ/Đ, so the diacritics of à and ẵ survive: the slug of "Đà Nẵng" is
"dà-nẵng" and the minted identifier does NOT end in "da-nang"; also each
space character is replaced by its own hyphen, so a run of two spaces
yields two hyphens, not one. -/
theorem mintSlugCounterexample :
    slugify "Đà Nẵng" = "dà-nẵng" ∧
    mintUri "Đà Nẵng" = "http://example.org/vn/entity/dà-nẵng" ∧
    strEndsWith (mintUri "Đà Nẵng") "da-nang" = false ∧
    (merge_graph [] [("Huế", "Đà Nẵng")]).any
        (fun t => decide (t.s = Node.uri "http://example.org/vn/entity/dà-nẵng")) = true ∧
    slugify "a  b" = "a--b" := by decide

/-- C3 amended: when the new label is unresolved, the merge step mints the
identifier "http://example.org/vn/entity/" ++ slug where the slug is trim,
lowercase, each space replaced by a hyphen, and only đ/Đ transliterated to
d/D, and emits type, label and canonicalLabel triples for it; the minted
identifier for "Đà Nẵng" ends in "dà-nẵng" (the other diacritics are
preserved). -/
theorem mintSlugAmended :
    ∀ (idx : LabelIndex) (g : RDFGraph) (p : String × String),
      resolve idx p.2 = none →
      (Triple.mk (mintNode p.2) RDF_type (Node.uri EX_Province) ∈ mergeStep idx g p ∧
       Triple.mk (mintNode p.2) RDFS_label (Node.lit p.2) ∈ mergeStep idx g p ∧
       Triple.mk (mintNode p.2) EX_canonicalLabel (Node.lit p.2) ∈ mergeStep idx g p) ∧
      mintUri p.2 = "http://example.org/vn/entity/" ++ slugify p.2 ∧
      strEndsWith (mintUri "Đà Nẵng") "dà-nẵng" = true := by
  intro idx g p hn
  exact ⟨mint_mem_mergeStep idx g p hn, rfl, by decide⟩

theorem mintSlugAmended_witness :
    Triple.mk (mintNode "Đà Nẵng") RDF_type (Node.uri EX_Province) ∈
      mergeStep [] [] ("Huế", "Đà Nẵng") :=
  ((mintSlugAmended [] [] ("Huế", "Đà Nẵng") (by decide)).1).1

/-- C4: the merge is deterministic — its output is a pure function of the
label index and the pair list.  Two runs over province graphs with equal
label indexes (in particular two runs on identical inputs) produce the
same triple list, and that list is duplicate-free, so equal lists mean
equal triple sets with the same synthesized identifiers. -/
theorem mergeDeterministic :
    ∀ (g g' : RDFGraph) (ms : List (String × String)),
      build_label_index g = build_label_index g' →
      merge_graph g ms = merge_graph g' ms ∧ (merge_graph g ms).Nodup := by
  intro g g' ms h
  constructor
  · unfold merge_graph
    rw [h]
  · exact nodup_merge_graph g ms

theorem mergeDeterministic_witness :
    merge_graph [Triple.mk (Node.uri "id1") RDFS_label (Node.lit "Foo")] [("x", "Foo")] =
      merge_graph [Triple.mk (Node.uri "id1") RDFS_label (Node.lit "Foo"),
                   Triple.mk (Node.uri "id2") RDFS_label (Node.lit "foo ")] [("x", "Foo")] :=
  (mergeDeterministic _ _ [("x", "Foo")] (by decide)).1

/-- C10: a pair skipped for its unresolved old label still mutates the
output graph when its new label is also unresolved: the step equals the
incoming graph extended with exactly the three mint triples (type, label,
canonicalLabel) for the new side and nothing else — no provenance edge;
concretely, merging the single fully-unresolved pair
("OldUnknown", "NewUnknown") leaves the three minted triples in the graph. -/
theorem skippedPairStillMints :
    ∀ (idx : LabelIndex) (g : RDFGraph) (p : String × String),
      resolve idx p.1 = none → resolve idx p.2 = none →
      mergeStep idx g p =
        ((g.add (Triple.mk (mintNode p.2) RDF_type (Node.uri EX_Province))).add
          (Triple.mk (mintNode p.2) RDFS_label (Node.lit p.2))).add
          (Triple.mk (mintNode p.2) EX_canonicalLabel (Node.lit p.2)) ∧
      merge_graph [] [("OldUnknown", "NewUnknown")] =
        [Triple.mk (mintNode "NewUnknown") RDF_type (Node.uri EX_Province),
         Triple.mk (mintNode "NewUnknown") RDFS_label (Node.lit "NewUnknown"),
         Triple.mk (mintNode "NewUnknown") EX_canonicalLabel (Node.lit "NewUnknown")] := by
  intro idx g p ho hn
  constructor
  · unfold mergeStep
    simp only [hn, ho]
  · decide

theorem skippedPairStillMints_witness :
    mergeStep [] [] ("OldUnknown", "NewUnknown") =
      ((RDFGraph.add [] (Triple.mk (mintNode "NewUnknown") RDF_type (Node.uri EX_Province))).add
        (Triple.mk (mintNode "NewUnknown") RDFS_label (Node.lit "NewUnknown"))).add
        (Triple.mk (mintNode "NewUnknown") EX_canonicalLabel (Node.lit "NewUnknown")) :=
  (skippedPairStillMints [] [] ("OldUnknown", "NewUnknown") (by decide) (by decide)).1

/-! ### Label-index characterization (first occurrence wins) -/

theorem lookupKey_append (idx : LabelIndex) (key : String) (v : Node) (k : String) :
    lookupKey (idx ++ [(key, v)]) k =
      (lookupKey idx k).or (if key = k then some v else none) := by
  unfold lookupKey
  rw [List.find?_append]
  cases h : List.find? (fun kv => decide (kv.1 = k)) idx
  · by_cases hk : key = k <;> simp [h, List.find?_cons, hk]
  · simp [h]

/-- Folding the index-building step over any suffix of the triple list
extends a lookup by the first matching label triple of that suffix. -/
theorem build_label_index_go (k : String) :
    ∀ (l : List Triple) (acc : LabelIndex),
      lookupKey
        (l.foldl
          (fun idx t =>
            if t.p = RDFS_label then
              match t.o with
              | Node.lit s =>
                let key := pyNorm s
                if (lookupKey idx key).isSome then idx else idx ++ [(key, t.s)]
              | Node.uri _ => idx
            else idx)
          acc) k =
      (lookupKey acc k).or
        ((l.find? (fun t => decide (t.p = RDFS_label) &&
            match t.o with
            | Node.lit s => decide (pyNorm s = k)
            | Node.uri _ => false)).map (fun t => t.s)) := by
  intro l
  induction l with
  | nil => intro acc; simp
  | cons t ts ih =>
    intro acc
    rw [List.foldl_cons, ih]
    by_cases hp : t.p = RDFS_label
    · cases hto : t.o with
      | uri u => simp [hp, hto, List.find?_cons]
      | lit s =>
        by_cases hin : (lookupKey acc (pyNorm s)).isSome = true
        · obtain ⟨v, hv⟩ := Option.isSome_iff_exists.mp hin
          by_cases hk : pyNorm s = k
          · rw [← hk] at *
            simp [hp, hto, hin, List.find?_cons, hv]
          · simp [hp, hto, hin, List.find?_cons, hk]
        · by_cases hk : pyNorm s = k
          · have hnone : lookupKey acc k = none := by
              rw [← hk]
              cases hlv : lookupKey acc (pyNorm s)
              · rfl
              · rw [hlv] at hin; simp at hin
            simp [hp, hto, hin, List.find?_cons, hk, lookupKey_append, hnone]
          · simp [hp, hto, hin, List.find?_cons, hk, lookupKey_append]
    · simp [hp, List.find?_cons]

theorem build_label_index_lookup (g : RDFGraph) (k : String) :
    lookupKey (build_label_index g) k =
      ((g.find? (fun t => decide (t.p = RDFS_label) &&
          match t.o with
          | Node.lit s => decide (pyNorm s = k)
          | Node.uri _ => false)).map (fun t => t.s)) := by
  unfold build_label_index
  rw [build_label_index_go k g []]
  simp [lookupKey]

/-- C5: the label index binds each trim-and-lowercase-normalized label to
the subject of its *first* label triple, skipping later occurrences of the
same normalized label, and `resolve` normalizes the query the same way: a
lookup returns exactly the subject of the first label triple whose
normalized literal equals the normalized query; in particular, for the
graph labelling id1 "Foo" and then id2 "foo ", resolving "FOO" gives id1. -/
theorem labelIndexFirstSeen :
    ∀ (g : RDFGraph) (lbl : String),
      resolve (build_label_index g) lbl =
        ((g.find? (fun t => decide (t.p = RDFS_label) &&
            match t.o with
            | Node.lit s => decide (pyNorm s = pyNorm lbl)
            | Node.uri _ => false)).map (fun t => t.s)) ∧
      resolve (build_label_index
          [Triple.mk (Node.uri "id1") RDFS_label (Node.lit "Foo"),
           Triple.mk (Node.uri "id2") RDFS_label (Node.lit "foo ")]) "FOO" =
        some (Node.uri "id1") := by
  intro g lbl
  exact ⟨build_label_index_lookup g (pyNorm lbl), by decide⟩

/-! ### Mapping-parser characterization -/

set_option linter.unnecessarySeqFocus false in
theorem parse_inner_go (new_label : String) :
    ∀ (parts : List String) (ms : List (String × String)),
      parts.foldl
        (fun ms old_part =>
          let old_label := pyStrip old_part
          if old_label = "" then ms else ms ++ [(old_label, new_label)])
        ms =
      ms ++ parts.filterMap (fun part =>
        let old_label := pyStrip part
        if old_label = "" then none else some (old_label, new_label)) := by
  intro parts
  induction parts with
  | nil => intro ms; simp
  | cons p ps ih =>
    intro ms
    rw [List.foldl_cons]
    by_cases h : pyStrip p = "" <;>
      simp only [h, if_pos, if_neg, List.filterMap_cons, ite_true, ite_false] <;>
      rw [ih] <;> simp [h]

theorem parse_outer_go :
    ∀ (rows : List Record) (acc : List (String × String)),
      rows.foldl
        (fun mappings raw_row =>
          let row := trimRowKeys raw_row
          let new_label := pyStrip (get_cell row "new_province")
          let old_field := pyStrip (get_cell row "old_province")
          if new_label = "" ∨ old_field = "" then mappings
          else
            (pySplit old_field '|').foldl
              (fun ms old_part =>
                let old_label := pyStrip old_part
                if old_label = "" then ms else ms ++ [(old_label, new_label)])
              mappings)
        acc =
      acc ++ rows.flatMap (fun raw_row =>
        let row := trimRowKeys raw_row
        let new_label := pyStrip (get_cell row "new_province")
        let old_field := pyStrip (get_cell row "old_province")
        if new_label = "" ∨ old_field = "" then []
        else (pySplit old_field '|').filterMap (fun part =>
          let old_label := pyStrip part
          if old_label = "" then none else some (old_label, new_label))) := by
  intro rows
  induction rows with
  | nil => intro acc; simp
  | cons r rs ih =>
    intro acc
    rw [List.foldl_cons]
    by_cases h : pyStrip (get_cell (trimRowKeys r) "new_province") = "" ∨
        pyStrip (get_cell (trimRowKeys r) "old_province") = ""
    · simp only [h, ite_true, if_pos, List.flatMap_cons]
      rw [ih]
      simp [h]
    · simp only [h, ite_false, if_neg, List.flatMap_cons]
      rw [parse_inner_go, ih]
      simp [h, List.append_assoc]

/-- C6: the parser drops a row whose new-province or old-province cell is
empty after trimming, splits the surviving old cell on the literal '|',
trims each segment, discards empty segments, and emits one
(oldLabel, newLabel) pair per surviving segment, preserving input row
order and within-row split order (the flatMap/filterMap form); in
particular the row with New_Province "A" and Old_Province " B | C "
yields exactly [("B","A"),("C","A")], and a row missing the old column
yields nothing. -/
theorem parseMappingCharacterization :
    ∀ (rows : List Record),
      parse_mapping_csv rows =
        rows.flatMap (fun raw_row =>
          let row := trimRowKeys raw_row
          let new_label := pyStrip (get_cell row "new_province")
          let old_field := pyStrip (get_cell row "old_province")
          if new_label = "" ∨ old_field = "" then []
          else (pySplit old_field '|').filterMap (fun part =>
            let old_label := pyStrip part
            if old_label = "" then none else some (old_label, new_label))) ∧
      parse_mapping_csv [[("New_Province", some "A"), ("Old_Province", some " B | C ")]] =
        [("B", "A"), ("C", "A")] ∧
      parse_mapping_csv [[("New_Province", some "A")]] = [] := by
  intro rows
  refine ⟨?_, by decide, by decide⟩
  unfold parse_mapping_csv
  rw [parse_outer_go rows []]
  simp

/-- C7: `get_cell` looks a logical column name up against the record's
keys by exact key first, then by trimmed key, then by case-insensitive
trimmed key, in that priority order, first match winning — shown by the
three-tier characterization and by concrete records where a lower tier
would give a different answer. -/
theorem getCellPriority :
    ∀ (row : Record) (key : String),
      (∀ v, dictGet row key = some v → get_cell row key = v.getD "") ∧
      (dictGet row key = none →
        ∀ v, dictGet row (pyStrip key) = some v → get_cell row key = v.getD "") ∧
      (dictGet row key = none → dictGet row (pyStrip key) = none →
        get_cell row key =
          (match row.find?
              (fun kv => decide (pyLower (pyStrip kv.1) = pyLower (pyStrip key))) with
          | some kv => kv.2.getD ""
          | none => "")) ∧
      get_cell [("new_province", some "exact"), (" new_province", some "trimmed"),
                ("New_Province", some "ci")] "new_province" = "exact" ∧
      get_cell [(" x", some "no"), ("x", some "trimmed"), ("X", some "ci")] "x " =
        "trimmed" ∧
      get_cell [("New_Province", some "ci"), ("new_province ", some "ci2")]
        "new_province" = "ci" := by
  intro row key
  refine ⟨?_, ?_, ?_, by decide, by decide, by decide⟩
  · intro v hv
    unfold get_cell
    simp only [hv]
  · intro h1 v hv
    unfold get_cell
    simp only [h1, hv]
  · intro h1 h2
    unfold get_cell
    simp only [h1, h2]

theorem getCellPriority_witness :
    get_cell [("new_province", some "exact"), (" new_province", some "trimmed"),
              ("New_Province", some "ci")] "new_province" = "exact" :=
  (getCellPriority [] "").2.2.2.1

/-! ### Retrieval-index safety -/

theorem filterMap_of_all_none {α β : Type} (f : α → Option β) :
    ∀ (l : List α), (∀ x ∈ l, f x = none) → l.filterMap f = [] := by
  intro l
  induction l with
  | nil => intro _; rfl
  | cons x xs ih =>
    intro h
    rw [List.filterMap_cons, h x (by simp)]
    exact ih (fun y hy => h y (by simp [hy]))

theorem length_filterMap_of_all_some {α β : Type} (f : α → Option β) :
    ∀ (l : List α), (∀ x ∈ l, (f x).isSome) → (l.filterMap f).length = l.length := by
  intro l
  induction l with
  | nil => intro _; rfl
  | cons x xs ih =>
    intro h
    rw [List.filterMap_cons]
    cases hfx : f x
    · have hs := h x (by simp)
      rw [hfx] at hs
      simp at hs
    · simp only [List.length_cons, ih (fun y hy => h y (by simp [hy]))]

/-- C8: building on an empty fact corpus takes the early-return branch
(index set to Python None, no call into the numeric backend), and search
on an empty-built or never-built index returns the empty ordered sequence
rather than an error, for every query and k. -/
theorem emptyCorpusSafe :
    ∀ (encode : String → Vec) (q : String) (k : Nat),
      RAGIndex.build encode [] = RAGIndex.mk none [] ∧
      RAGIndex.search encode (RAGIndex.build encode []) q k = [] ∧
      RAGIndex.search encode RAGIndex.new q k = [] := by
  intro encode q k
  exact ⟨rfl, rfl, rfl⟩

/-- C9: every result of a search over a built index arises from a backend
index inside [0, corpusSize) — out-of-range entries, including the faiss
sentinel -1, are filtered out — so each returned fact string is an element
of the corpus; and when k is at least the corpus size the search returns
exactly one result per corpus entry instead of erroring. -/
theorem searchWithinCorpus :
    ∀ (encode : String → Vec) (facts : List String) (q : String) (k : Nat),
      (∀ r ∈ RAGIndex.search encode (RAGIndex.build encode facts) q k, r.1 ∈ facts) ∧
      (facts ≠ [] → facts.length ≤ k →
        (RAGIndex.search encode (RAGIndex.build encode facts) q k).length = facts.length) := by
  intro encode facts q k
  by_cases hf : facts.isEmpty
  · have hfe : facts = [] := by
      cases facts
      · rfl
      · simp [List.isEmpty] at hf
    subst hfe
    refine ⟨?_, ?_⟩
    · intro r hr
      simp [RAGIndex.search, RAGIndex.build] at hr
    · intro hne _
      exact absurd rfl hne
  · have hbuild : RAGIndex.build encode facts = ⟨some ⟨facts.map encode⟩, facts⟩ := by
      unfold RAGIndex.build
      rw [if_neg hf]
    rw [hbuild]
    have hsearch :
        RAGIndex.search encode ⟨some ⟨facts.map encode⟩, facts⟩ q k =
          (IndexFlatIP.search ⟨facts.map encode⟩ (encode q) k).filterMap
            (fun p =>
              if 0 ≤ p.1 ∧ p.1 < (facts.length : Int) then
                some (facts.getD p.1.toNat "", p.2)
              else none) := rfl
    have hraw :
        IndexFlatIP.search ⟨facts.map encode⟩ (encode q) k =
          ((List.insertionSort (rankRel ⟨facts.map encode⟩ (encode q))
              (List.range (facts.map encode).length)).take k).map
            (fun i => (Int.ofNat i, ipScore ⟨facts.map encode⟩ (encode q) i)) ++
          List.replicate (k - (facts.map encode).length) ((-1 : Int), 0) := rfl
    rw [hsearch, hraw]
    constructor
    · intro r hr
      rw [List.mem_filterMap] at hr
      obtain ⟨p, hp, hsome⟩ := hr
      by_cases hcond : 0 ≤ p.1 ∧ p.1 < (facts.length : Int)
      · rw [if_pos hcond] at hsome
        have heq := Option.some.inj hsome
        subst heq
        have hlt : p.1.toNat < facts.length := by omega
        show facts.getD p.1.toNat "" ∈ facts
        rw [List.getD_eq_getElem _ _ hlt]
        exact List.getElem_mem _
      · rw [if_neg hcond] at hsome
        cases hsome
    · intro hne hk
      rw [List.filterMap_append, List.length_append]
      have hpad :
          (List.replicate (k - (facts.map encode).length) ((-1 : Int), (0 : ℤ))).filterMap
            (fun p =>
              if 0 ≤ p.1 ∧ p.1 < (facts.length : Int) then
                some (facts.getD p.1.toNat "", p.2)
              else none) = [] := by
        apply filterMap_of_all_none
        intro x hx
        have hxe := List.eq_of_mem_replicate hx
        subst hxe
        rw [if_neg]
        rintro ⟨h1, _⟩
        omega
      have hmap :
          ((((List.insertionSort (rankRel ⟨facts.map encode⟩ (encode q))
              (List.range (facts.map encode).length)).take k).map
            (fun i => (Int.ofNat i, ipScore ⟨facts.map encode⟩ (encode q) i))).filterMap
            (fun p =>
              if 0 ≤ p.1 ∧ p.1 < (facts.length : Int) then
                some (facts.getD p.1.toNat "", p.2)
              else none)).length =
          (((List.insertionSort (rankRel ⟨facts.map encode⟩ (encode q))
              (List.range (facts.map encode).length)).take k).map
            (fun i => (Int.ofNat i, ipScore ⟨facts.map encode⟩ (encode q) i))).length := by
        apply length_filterMap_of_all_some
        intro x hx
        obtain ⟨i, hi, rfl⟩ := List.mem_map.mp hx
        have hio := List.take_subset k _ hi
        have hir := (List.perm_insertionSort
          (rankRel ⟨facts.map encode⟩ (encode q)) _).mem_iff.mp hio
        have hilt := List.mem_range.mp hir
        rw [List.length_map] at hilt
        rw [if_pos]
        · rfl
        · constructor
          · show (0 : Int) ≤ (i : Int)
            omega
          · show ((i : Int) : Int) < (facts.length : Int)
            omega
      rw [hpad, hmap]
      simp only [List.length_map, List.length_take, List.length_insertionSort,
        List.length_range, List.length_nil]
      omega

theorem searchWithinCorpus_witness :
    (RAGIndex.search (fun _ => [1]) (RAGIndex.build (fun _ => [1]) ["a", "b"]) "x" 5).length
      = 2 :=
  (searchWithinCorpus (fun _ => [1]) ["a", "b"] "x" 5).2 (by decide) (by decide)

end KGRag
